import Mathlib

/-!
Verification of the workflow validator script (validate-workflows.py).

The script scans a directory for files ending in .yml, checks each for YAML
syntax (via an external YAML library, modelled here as an oracle flag on each
file), and runs six regex-based pattern rules over the raw text, accumulating
error and warning counts that determine the process exit code.

The regular expressions used by the script are simple enough (literals,
greedy star and plus over single-character classes, concatenation; no
alternation, no nesting) that a small backtracking engine models the
semantics of the findall calls exactly on these patterns.
-/

set_option linter.unusedVariables false

/-! ## A small regex engine for the fragment used by the script -/

/-- Regex fragment used by the script: literal strings, greedy star and
greedy plus over a single-character class, and concatenation. -/
inductive RE where
  | lit : List Char → RE
  | star : (Char → Bool) → RE
  | plus : (Char → Bool) → RE
  | seq : RE → RE → RE

/-- Length of the maximal run of characters satisfying p at the head. -/
def charRun (p : Char → Bool) (cs : List Char) : Nat :=
  (cs.takeWhile p).length

/-- All remainders after matching r at the head of cs, in the order a
backtracking regex engine with greedy quantifiers would try them.  The
head of the list is the remainder of the match the Python re module
commits to. -/
def remainders : RE → List Char → List (List Char)
  | .lit s, cs => if s.isPrefixOf cs then [cs.drop s.length] else []
  | .star p, cs =>
      (List.range (charRun p cs + 1)).reverse.map (fun k => cs.drop k)
  | .plus p, cs =>
      let n := charRun p cs
      if n = 0 then [] else (List.range n).reverse.map (fun k => cs.drop (k + 1))
  | .seq a b, cs => (remainders a cs).flatMap (fun rem => remainders b rem)

/-- One attempted match at the head of cs: the matched text and the rest. -/
def reStep (r : RE) (cs : List Char) : Option (List Char × List Char) :=
  match (remainders r cs).head? with
  | some rem => some (cs.take (cs.length - rem.length), rem)
  | none => none

/-- The scan loop of re.findall: try a match at each position from the left;
on a match, record it and resume after it, otherwise advance one character.
Fuel makes the recursion structural; fuel = length of the text suffices for
any step that consumes at least one character, which all of the patterns of
the script do (each starts with a nonempty literal). -/
def scanAllF (step : List Char → Option (List Char × List Char)) :
    Nat → List Char → List (List Char)
  | 0, _ => []
  | _ + 1, [] => []
  | fuel + 1, c :: cs =>
    match step (c :: cs) with
    | some (g, after) => g :: scanAllF step fuel after
    | none => scanAllF step fuel cs

/-- re.findall for a pattern without capturing groups: the list of matched
substrings, leftmost and non-overlapping. -/
def reFindAll (r : RE) (cs : List Char) : List (List Char) :=
  scanAllF (reStep r) cs.length cs

/-- Python substring containment (the `in` operator on str). -/
def containsSub (sub : List Char) : List Char → Bool
  | [] => sub.isEmpty
  | c :: cs => sub.isPrefixOf (c :: cs) || containsSub sub cs

/-- The character class \s of the re module (ASCII part). -/
def pySpace (c : Char) : Bool :=
  c == ' ' || c == '\t' || c == '\n' || c == '\r' || c == '\x0b' || c == '\x0c'

/-- The character class [A-Z_]. -/
def upperUnd (c : Char) : Bool :=
  c.isUpper || c == '_'

/-! ## The five compiled patterns of the script -/

/-- Rule 1 pattern: if:\s*\$\{\{\s*secrets\.[A-Z_]+\s*\}\} -/
def secretsIfRE : RE :=
  .seq (.lit ("if:".toList))
    (.seq (.star pySpace)
      (.seq (.lit ("$\x7b\x7b".toList))
        (.seq (.star pySpace)
          (.seq (.lit ("secrets.".toList))
            (.seq (.plus upperUnd)
              (.seq (.star pySpace) (.lit ("\x7d\x7d".toList))))))))

/-- Rule 2 unused pattern string of the source, assigned and never compiled:
if:\s*env\.[A-Z_]+\s*!?=\s*[..][..]\s*$ with two quote characters in each
bracket class. -/
def if_env_pattern : String :=
  "if:\\s*env\\.[A-Z_]+\\s*!?=\\s*[\x27\x22][\x27\x22]\\s*$"

/-- Rule 2 pattern: env:\s*\n\s*[A-Z_]+:  (the MULTILINE flag of the source
only changes the meaning of anchors, which this pattern does not contain). -/
def envDefRE : RE :=
  .seq (.lit ("env:".toList))
    (.seq (.star pySpace)
      (.seq (.lit ("\n".toList))
        (.seq (.star pySpace)
          (.seq (.plus upperUnd) (.lit (":".toList))))))

/-- Rule 6 pattern: uses:\s*actions/[^@]+@v\d+ -/
def usesActionsRE : RE :=
  .seq (.lit ("uses:".toList))
    (.seq (.star pySpace)
      (.seq (.lit ("actions/".toList))
        (.seq (.plus (fun c => c != '@'))
          (.seq (.lit ("@v".toList)) (.plus Char.isDigit)))))

/-! Rule 4 pattern name:\s*([^\n]+) and Rule 3 pattern needs:\s*\[([^\]]+)\]
have a capturing group, so re.findall returns the group text; they are
implemented directly, with the backtracking between the greedy \s* and the
following group spelled out. -/

/-- Backtracking for name:\s*([^\n]+) after the literal: w counts how many
whitespace characters \s* consumes, starting from the maximal run and
retreating until [^\n]+ can match.  Returns the group text and the rest. -/
def nameTail (rest : List Char) : Nat → Option (List Char × List Char)
  | 0 =>
    match rest with
    | [] => none
    | c :: _ =>
      if c == '\n' then none
      else some (rest.takeWhile (fun d => d != '\n'), rest.dropWhile (fun d => d != '\n'))
  | w + 1 =>
    match rest.drop (w + 1) with
    | [] => nameTail rest w
    | c :: _ =>
      if c == '\n' then nameTail rest w
      else some ((rest.drop (w + 1)).takeWhile (fun d => d != '\n'),
                 (rest.drop (w + 1)).dropWhile (fun d => d != '\n'))

/-- One attempted match of name:\s*([^\n]+) at the head of cs. -/
def nameStep (cs : List Char) : Option (List Char × List Char) :=
  if ("name:".toList).isPrefixOf cs then
    let rest := cs.drop 5
    nameTail rest (charRun pySpace rest)
  else none

/-- re.findall of name:\s*([^\n]+): the captured group of every match. -/
def nameFindAll (cs : List Char) : List (List Char) :=
  scanAllF nameStep cs.length cs

/-- One attempted match of needs:\s*\[([^\]]+)\] at the head of cs.
The classes \s and [^\]] are disjoint from the literals that follow them,
so maximal munch needs no backtracking here. -/
def needsStep (cs : List Char) : Option (List Char × List Char) :=
  if ("needs:".toList).isPrefixOf cs then
    let rest2 := (cs.drop 6).dropWhile pySpace
    match rest2 with
    | '[' :: r3 =>
      let grp := r3.takeWhile (fun d => d != ']')
      match r3.drop grp.length with
      | ']' :: after => if grp.isEmpty then none else some (grp, after)
      | _ => none
    | _ => none
  else none

/-- re.findall of needs:\s*\[([^\]]+)\]: the captured group of every match. -/
def needsFindAll (cs : List Char) : List (List Char) :=
  scanAllF needsStep cs.length cs

/-! ## The per-file rule engine: validate_workflow_file -/

/-- Summary message of Rule 1. -/
def secretsSummaryMsg : String :=
  "Incorrect secrets usage in \x27if\x27 conditions. Use env variables instead."

/-- Per-match message of Rule 1. -/
def foundMsg (m : List Char) : String :=
  "  Found: " ++ String.mk m

/-- Message of Rule 4, embedding the offending name. -/
def artifactMsg (n : List Char) : String :=
  "Artifact name may contain invalid characters: " ++ String.mk n

/-- Message of Rule 5. -/
def permissionsMsg : String :=
  "Consider adding explicit permissions for security"

/-- Message of Rule 6. -/
def versionsMsg : String :=
  "Consider using latest versions or pinning to specific commits for security"

/-- The test of Rule 4 on one captured name: a space or one of the listed
characters occurs in it. -/
def hasInvalidChar (n : List Char) : Bool :=
  n.contains ' ' ||
    (['/', '\\', ':', '*', '?', '"', '<', '>', '|'].any (fun c => n.contains c))

/-- validate_workflow_file of the source, on the text of one file: the pair
(errors, warnings) of messages.  The bindings env_definitions and
needs_pattern are computed and never used, exactly as in the source. -/
def validate_workflow_file (content : String) : List String × List String :=
  let cs := content.toList
  let errors : List String := []
  let warnings : List String := []
  let secrets_in_if := reFindAll secretsIfRE cs
  let errors :=
    if secrets_in_if.isEmpty then errors
    else (errors ++ [secretsSummaryMsg]) ++ secrets_in_if.map (fun m => foundMsg m)
  let env_definitions := reFindAll envDefRE cs
  let needs_pattern := needsFindAll cs
  let artifact_names := nameFindAll cs
  let warnings :=
    warnings ++ (artifact_names.filter hasInvalidChar).map (fun n => artifactMsg n)
  let warnings :=
    if containsSub ("actions/checkout@v".toList) cs &&
        !(containsSub ("permissions:".toList) cs)
    then warnings ++ [permissionsMsg] else warnings
  let hardcoded_versions := reFindAll usesActionsRE cs
  let warnings :=
    if hardcoded_versions.isEmpty then warnings else warnings ++ [versionsMsg]
  (errors, warnings)

/-! ## The individual rules as standalone functions (for the theorems) -/

/-- Rule 1 alone: the error list produced by the secrets-in-conditional
check. -/
def secretsErrors (cs : List Char) : List String :=
  let ms := reFindAll secretsIfRE cs
  if ms.isEmpty then [] else secretsSummaryMsg :: ms.map (fun m => foundMsg m)

/-- Rule 4 alone: one warning per captured name that fails the character
test, in order of occurrence. -/
def artifactWarnings (cs : List Char) : List String :=
  ((nameFindAll cs).filter hasInvalidChar).map (fun n => artifactMsg n)

/-- Rule 5 alone. -/
def permissionWarnings (cs : List Char) : List String :=
  if containsSub ("actions/checkout@v".toList) cs &&
      !(containsSub ("permissions:".toList) cs)
  then [permissionsMsg] else []

/-- Rule 6 alone. -/
def versionWarnings (cs : List Char) : List String :=
  if (reFindAll usesActionsRE cs).isEmpty then [] else [versionsMsg]

/-- The rule engine as the spec describes the live rules: Rules 1, 4, 5
and 6 alone, errors first, warnings in source order. -/
def rules1456 (content : String) : List String × List String :=
  (secretsErrors content.toList,
   artifactWarnings content.toList ++ permissionWarnings content.toList ++
     versionWarnings content.toList)

/-! ## The main loop -/

/-- A directory entry as the main loop sees it: its name, its text, and the
outcome of the external YAML parse (yaml.safe_load is a third-party library,
modelled as an oracle: a success flag plus the diagnostic text shown on
failure). -/
structure WFile where
  name : String
  content : String
  yamlOk : Bool
  yamlDiag : String

/-- What one processed file adds to (total_errors, total_warnings): a parse
failure adds (1, 0) and short-circuits the rule engine; otherwise the
lengths of the two lists returned by validate_workflow_file. -/
def fileContribution (f : WFile) : Nat × Nat :=
  if f.yamlOk then
    let ew := validate_workflow_file f.content
    (ew.1.length, ew.2.length)
  else (1, 0)

/-- The error and warning messages reported for one processed file. -/
def fileReport (f : WFile) : List String × List String :=
  if f.yamlOk then validate_workflow_file f.content
  else (["  ❌ YAML Error: " ++ f.yamlDiag], [])

/-- The findings of one file in the order the reporter prints them: all
errors, then all warnings. -/
def reportLines (f : WFile) : List String :=
  (fileReport f).1 ++ (fileReport f).2

/-- One iteration of the counter updates of the main loop. -/
def stepTotals (t : Nat × Nat) (f : WFile) : Nat × Nat :=
  (t.1 + (fileContribution f).1, t.2 + (fileContribution f).2)

/-- Final (total_errors, total_warnings) after the loop over the given
files. -/
def runTotals (files : List WFile) : Nat × Nat :=
  files.foldl stepTotals (0, 0)

/-- The successive values of the counter pair during the loop, starting
from t: the trace has one entry before any file and one after each file. -/
def totalsTrace (t : Nat × Nat) : List WFile → List (Nat × Nat)
  | [] => [t]
  | f :: fs => t :: totalsTrace (stepTotals t f) fs

/-- sorted(os.listdir(dir)): Python sorts names lexicographically by code
point, which is the order of ≤ on String. -/
def sortedEntries (entries : List WFile) : List WFile :=
  entries.mergeSort (fun a b => decide (a.name ≤ b.name))

/-- The files the loop actually processes: the sorted entries, keeping those
whose name ends with the literal suffix .yml. -/
def processedFiles (entries : List WFile) : List WFile :=
  (sortedEntries entries).filter (fun f => f.name.endsWith ".yml")

/-- Observable outcome of one run of main. -/
structure RunResult where
  exitCode : Nat
  processed : List WFile
  total_errors : Nat
  total_warnings : Nat

/-- main: exits 1 processing nothing when the directory is missing;
otherwise processes the sorted .yml entries, accumulates the two counters,
and exits 0 exactly when total_errors is 0. -/
def main_run (dirExists : Bool) (entries : List WFile) : RunResult :=
  if dirExists then
    let files := processedFiles entries
    let t := runTotals files
    ⟨if t.1 = 0 then 0 else 1, files, t.1, t.2⟩
  else ⟨1, [], 0, 0⟩

/-! ## Helper lemmas -/

/-- The rule engine decomposes into the four live rules: the bindings for
Rules 2 and 3 are computed but contribute nothing. -/
theorem validate_eq_components (content : String) :
    validate_workflow_file content =
      (secretsErrors content.toList,
       artifactWarnings content.toList ++ permissionWarnings content.toList ++
         versionWarnings content.toList) := by
  unfold validate_workflow_file secretsErrors artifactWarnings permissionWarnings
    versionWarnings
  split_ifs <;> simp_all

/-- The counter fold is the pairwise sum of per-file contributions. -/
theorem foldl_stepTotals (fs : List WFile) (t : Nat × Nat) :
    fs.foldl stepTotals t =
      (t.1 + (fs.map (fun g => (fileContribution g).1)).sum,
       t.2 + (fs.map (fun g => (fileContribution g).2)).sum) := by
  induction fs generalizing t with
  | nil => simp
  | cons f fs ih =>
    simp only [List.foldl_cons, ih, stepTotals, List.map_cons, List.sum_cons,
      Prod.mk.injEq]
    omega

/-- The trace starts at its initial counter pair. -/
theorem totalsTrace_head (t : Nat × Nat) (fs : List WFile) :
    (totalsTrace t fs).head? = some t := by
  cases fs <;> rfl

/-- The counters never decrease along the trace. -/
theorem totalsTrace_chain (fs : List WFile) (t : Nat × Nat) :
    List.Chain' (fun a b : Nat × Nat => a.1 ≤ b.1 ∧ a.2 ≤ b.2)
      (totalsTrace t fs) := by
  induction fs generalizing t with
  | nil => simp [totalsTrace]
  | cons f fs ih =>
    rw [totalsTrace, List.chain'_cons']
    refine ⟨?_, ih _⟩
    intro y hy
    rw [totalsTrace_head] at hy
    cases hy
    exact ⟨Nat.le_add_right _ _, Nat.le_add_right _ _⟩

/-- The last trace entry is the result of the fold. -/
theorem totalsTrace_getLast (fs : List WFile) (t : Nat × Nat) :
    (totalsTrace t fs).getLast? = some (fs.foldl stepTotals t) := by
  induction fs generalizing t with
  | nil => rfl
  | cons f fs ih =>
    rw [totalsTrace, List.foldl_cons]
    cases fs with
    | nil => rfl
    | cons g gs =>
      rw [totalsTrace, List.getLast?_cons_cons, ← totalsTrace, ih]

/-! ## Claim theorems -/

/-- C7: Rules 2 and 3 are dead: for every input text the pair (errors,
warnings) returned by validate_workflow_file equals the pair computed by
Rules 1, 4, 5 and 6 alone; the env-definition and needs-list extractions
contribute no finding. -/
theorem dead_rules_eq (content : String) :
    validate_workflow_file content = rules1456 content :=
  validate_eq_components content

/-- C9: the artifact-name pattern is unanchored, so it also fires inside a
longer key: the single line filename: my file, which has no line with key
name, still yields exactly the artifact warning embedding the text my file
(the capture of the pattern starting inside the word filename). -/
theorem artifact_unanchored_fires :
    nameFindAll ("filename: my file".toList) = ["my file".toList] ∧
    validate_workflow_file "filename: my file" =
      ([], [artifactMsg ("my file".toList)]) := by
  exact ⟨by decide, by decide⟩

/-- C10: findings of a file come in a fixed deterministic order: the errors
are the Rule 1 summary followed by one line per match in scan order, the
warnings are the artifact warnings in scan order, then the
missing-permissions advisory, then the unpinned-version advisory, and the
reporter prints all errors before all warnings. -/
theorem findings_order (content : String) (f : WFile) (hok : f.yamlOk = true) :
    (validate_workflow_file content).1 = secretsErrors content.toList ∧
    secretsErrors content.toList =
      (if (reFindAll secretsIfRE content.toList).isEmpty then []
       else secretsSummaryMsg ::
         (reFindAll secretsIfRE content.toList).map (fun m => foundMsg m)) ∧
    (validate_workflow_file content).2 =
      artifactWarnings content.toList ++ permissionWarnings content.toList ++
        versionWarnings content.toList ∧
    reportLines f =
      (validate_workflow_file f.content).1 ++ (validate_workflow_file f.content).2 := by
  refine ⟨by rw [validate_eq_components], rfl, by rw [validate_eq_components], ?_⟩
  simp [reportLines, fileReport, hok]

/-- Witness for C10 at a concrete text and file. -/
theorem findings_order_witness :
    (⟨"a.yml", "name: ok", true, ""⟩ : WFile).yamlOk = true ∧
    ((validate_workflow_file "name: x").1 = secretsErrors ("name: x".toList) ∧
     secretsErrors ("name: x".toList) =
       (if (reFindAll secretsIfRE ("name: x".toList)).isEmpty then []
        else secretsSummaryMsg ::
          (reFindAll secretsIfRE ("name: x".toList)).map (fun m => foundMsg m)) ∧
     (validate_workflow_file "name: x").2 =
       artifactWarnings ("name: x".toList) ++ permissionWarnings ("name: x".toList) ++
         versionWarnings ("name: x".toList) ∧
     reportLines ⟨"a.yml", "name: ok", true, ""⟩ =
       (validate_workflow_file "name: ok").1 ++ (validate_workflow_file "name: ok").2) :=
  ⟨rfl, findings_order "name: x" ⟨"a.yml", "name: ok", true, ""⟩ rfl⟩

/-- C6: the artifact rule warns exactly on captured name values containing a
space or one of the listed characters, embedding the literal value; the line
name: my artifact yields exactly one warning embedding my artifact, and
name: my-artifact yields none. -/
theorem artifact_name_rule (cs n : List Char) (hn : n ∈ nameFindAll cs) :
    (artifactMsg n ∈ artifactWarnings cs ↔ hasInvalidChar n = true) ∧
    validate_workflow_file "name: my artifact" =
      ([], [artifactMsg ("my artifact".toList)]) ∧
    validate_workflow_file "name: my-artifact" = ([], []) := by
  refine ⟨?_, by decide, by decide⟩
  simp only [artifactWarnings]
  constructor
  · intro hmem
    rcases List.mem_map.mp hmem with ⟨n', hn', heq⟩
    have hdata : ("Artifact name may contain invalid characters: ").data ++ n' =
        ("Artifact name may contain invalid characters: ").data ++ n := by
      have h2 := congrArg String.data heq
      simpa [artifactMsg, String.data_append] using h2
    have heqn : n' = n := List.append_cancel_left hdata
    subst heqn
    exact (List.mem_filter.mp hn').2
  · intro hbad
    exact List.mem_map_of_mem _ (List.mem_filter.mpr ⟨hn, hbad⟩)

/-- Witness for C6 at the concrete line of the claim. -/
theorem artifact_name_rule_witness :
    ("my artifact".toList ∈ nameFindAll ("name: my artifact".toList)) ∧
    ((artifactMsg ("my artifact".toList) ∈
        artifactWarnings ("name: my artifact".toList) ↔
      hasInvalidChar ("my artifact".toList) = true) ∧
     validate_workflow_file "name: my artifact" =
       ([], [artifactMsg ("my artifact".toList)]) ∧
     validate_workflow_file "name: my-artifact" = ([], [])) :=
  ⟨by decide, artifact_name_rule ("name: my artifact".toList) ("my artifact".toList)
    (by decide)⟩

/-- C4: when the secrets-in-conditional pattern has n ≥ 1 matches, the error
list of the rule engine is exactly the summary message followed by one line
per literal match in scan order: n + 1 entries, hence at least 2. -/
theorem secrets_rule (content : String)
    (h : reFindAll secretsIfRE content.toList ≠ []) :
    (validate_workflow_file content).1 =
      secretsSummaryMsg ::
        (reFindAll secretsIfRE content.toList).map (fun m => foundMsg m) ∧
    (validate_workflow_file content).1.length =
      (reFindAll secretsIfRE content.toList).length + 1 ∧
    2 ≤ (validate_workflow_file content).1.length := by
  have h1 : (validate_workflow_file content).1 = secretsErrors content.toList := by
    rw [validate_eq_components]
  have h2 : secretsErrors content.toList =
      secretsSummaryMsg ::
        (reFindAll secretsIfRE content.toList).map (fun m => foundMsg m) := by
    have hd : reFindAll secretsIfRE content.data ≠ [] := h
    unfold secretsErrors
    simp [List.isEmpty_iff, hd]
  have hpos : 0 < (reFindAll secretsIfRE content.toList).length :=
    List.length_pos.mpr h
  refine ⟨h1.trans h2, ?_, ?_⟩
  · rw [h1, h2]; simp
  · rw [h1, h2]
    simp only [List.length_cons, List.length_map]
    omega

/-- Witness for C4 at a file consisting of one offending conditional. -/
theorem secrets_rule_witness :
    (reFindAll secretsIfRE ("if: $\x7b\x7b secrets.MY_TOKEN \x7d\x7d".toList) ≠ []) ∧
    ((validate_workflow_file "if: $\x7b\x7b secrets.MY_TOKEN \x7d\x7d").1 =
       secretsSummaryMsg ::
         (reFindAll secretsIfRE
           ("if: $\x7b\x7b secrets.MY_TOKEN \x7d\x7d".toList)).map (fun m => foundMsg m) ∧
     (validate_workflow_file "if: $\x7b\x7b secrets.MY_TOKEN \x7d\x7d").1.length =
       (reFindAll secretsIfRE
         ("if: $\x7b\x7b secrets.MY_TOKEN \x7d\x7d".toList)).length + 1 ∧
     2 ≤ (validate_workflow_file "if: $\x7b\x7b secrets.MY_TOKEN \x7d\x7d").1.length) :=
  ⟨by decide, secrets_rule "if: $\x7b\x7b secrets.MY_TOKEN \x7d\x7d" (by decide)⟩

/-- C5: a parsed file that contains a pinned checkout reference, no
permissions: token, and matches no other rule pattern gets zero errors and
exactly the two fixed advisories, each once: missing permissions then
unpinned version. -/
theorem checkout_pinned_warnings (f : WFile) (hok : f.yamlOk = true)
    (h1 : reFindAll secretsIfRE f.content.toList = [])
    (h4 : (nameFindAll f.content.toList).filter hasInvalidChar = [])
    (h5 : containsSub ("actions/checkout@v".toList) f.content.toList = true)
    (h5b : containsSub ("permissions:".toList) f.content.toList = false)
    (h6 : reFindAll usesActionsRE f.content.toList ≠ []) :
    fileReport f = ([], [permissionsMsg, versionsMsg]) ∧
    fileContribution f = (0, 2) := by
  have h1d : reFindAll secretsIfRE f.content.data = [] := h1
  have h4d : List.filter hasInvalidChar (nameFindAll f.content.data) = [] := h4
  have h5d : containsSub ("actions/checkout@v".toList) f.content.data = true := h5
  have h5bd : containsSub ("permissions:".toList) f.content.data = false := h5b
  have h6d : reFindAll usesActionsRE f.content.data ≠ [] := h6
  have e1 : secretsErrors f.content.toList = [] := by
    simp [secretsErrors, h1d]
  have e2 : artifactWarnings f.content.toList = [] := by
    simp [artifactWarnings, h4d]
  have e3 : permissionWarnings f.content.toList = [permissionsMsg] := by
    simp at h5d h5bd
    simp [permissionWarnings, h5d, h5bd]
  have e4 : versionWarnings f.content.toList = [versionsMsg] := by
    simp [versionWarnings, List.isEmpty_iff, h6d]
  have hv : validate_workflow_file f.content = ([], [permissionsMsg, versionsMsg]) := by
    rw [validate_eq_components, e1, e2, e3, e4]
    rfl
  constructor
  · simp [fileReport, hok, hv]
  · simp [fileContribution, hok, hv]

/-- Witness for C5 at the a.yml scenario file of the spec. -/
theorem checkout_pinned_warnings_witness :
    ((⟨"a.yml", "uses: actions/checkout@v2\n", true, ""⟩ : WFile).yamlOk = true) ∧
    (fileReport ⟨"a.yml", "uses: actions/checkout@v2\n", true, ""⟩ =
       ([], [permissionsMsg, versionsMsg]) ∧
     fileContribution ⟨"a.yml", "uses: actions/checkout@v2\n", true, ""⟩ = (0, 2)) :=
  ⟨rfl, checkout_pinned_warnings ⟨"a.yml", "uses: actions/checkout@v2\n", true, ""⟩
    rfl (by decide) (by decide) (by decide) (by decide) (by decide)⟩

/-- C1: with the directory present, the exit code is 0 exactly when the
final total_errors is 0 — the code is a function of total_errors alone, so
warnings never affect it; with the directory missing, the exit code is 1
and no file is processed. -/
theorem exit_code_spec (dirExists : Bool) (entries : List WFile) :
    (dirExists = true →
      ((main_run dirExists entries).exitCode = 0 ↔
        (main_run dirExists entries).total_errors = 0)) ∧
    (dirExists = true →
      (main_run dirExists entries).exitCode =
        (if (main_run dirExists entries).total_errors = 0 then 0 else 1)) ∧
    (dirExists = false →
      (main_run dirExists entries).exitCode = 1 ∧
        (main_run dirExists entries).processed = []) := by
  cases dirExists with
  | false => simp [main_run]
  | true =>
    refine ⟨fun _ => ?_, fun _ => ?_, fun h => by cases h⟩
    · simp only [main_run, if_true]
      split_ifs with h <;> simp [h]
    · simp only [main_run, if_true]

/-- Witness for C1 at a concrete directory state. -/
theorem exit_code_spec_witness :
    ((main_run true []).exitCode = 0 ↔ (main_run true []).total_errors = 0) ∧
    ((main_run false []).exitCode = 1 ∧ (main_run false []).processed = []) :=
  ⟨(exit_code_spec true []).1 rfl, (exit_code_spec false []).2.2 rfl⟩

/-- C2: a file whose YAML parse fails is reported with exactly one error,
namely the parser diagnostic, and zero warnings; the rule engine result is
not consulted (the report is the same whatever the text is); the file adds
(1, 0) to the counters; and the rest of the batch is processed normally. -/
theorem yaml_parse_failure (f : WFile) (h : f.yamlOk = false) (xs ys : List WFile) :
    fileReport f = (["  ❌ YAML Error: " ++ f.yamlDiag], []) ∧
    (fileReport f).1.length = 1 ∧
    (fileReport f).2.length = 0 ∧
    fileContribution f = (1, 0) ∧
    (∀ c : String, fileReport ⟨f.name, c, f.yamlOk, f.yamlDiag⟩ = fileReport f) ∧
    runTotals (xs ++ f :: ys) =
      ((runTotals xs).1 + 1 + (ys.map (fun g => (fileContribution g).1)).sum,
       (runTotals xs).2 + (ys.map (fun g => (fileContribution g).2)).sum) := by
  have hrep : fileReport f = (["  ❌ YAML Error: " ++ f.yamlDiag], []) := by
    simp [fileReport, h]
  have hcon : fileContribution f = (1, 0) := by
    simp [fileContribution, h]
  refine ⟨hrep, by rw [hrep]; rfl, by rw [hrep]; rfl, hcon, ?_, ?_⟩
  · intro c
    simp [fileReport, h]
  · unfold runTotals
    rw [List.foldl_append, List.foldl_cons, foldl_stepTotals ys]
    simp [stepTotals, hcon]

/-- Witness for C2 at a concrete failing file between two other files. -/
theorem yaml_parse_failure_witness :
    ((⟨"b.yml", "x: [", false, "parse error"⟩ : WFile).yamlOk = false) ∧
    (fileReport ⟨"b.yml", "x: [", false, "parse error"⟩ =
       (["  ❌ YAML Error: " ++ "parse error"], []) ∧
     (fileReport ⟨"b.yml", "x: [", false, "parse error"⟩).1.length = 1 ∧
     (fileReport ⟨"b.yml", "x: [", false, "parse error"⟩).2.length = 0 ∧
     fileContribution ⟨"b.yml", "x: [", false, "parse error"⟩ = (1, 0) ∧
     (∀ c : String, fileReport ⟨"b.yml", c, false, "parse error"⟩ =
        fileReport ⟨"b.yml", "x: [", false, "parse error"⟩) ∧
     runTotals ([⟨"a.yml", "name: ok", true, ""⟩] ++
         ⟨"b.yml", "x: [", false, "parse error"⟩ :: [⟨"c.yml", "name: ok", true, ""⟩]) =
       ((runTotals [⟨"a.yml", "name: ok", true, ""⟩]).1 + 1 +
          ([(⟨"c.yml", "name: ok", true, ""⟩ : WFile)].map
            (fun g => (fileContribution g).1)).sum,
        (runTotals [⟨"a.yml", "name: ok", true, ""⟩]).2 +
          ([(⟨"c.yml", "name: ok", true, ""⟩ : WFile)].map
            (fun g => (fileContribution g).2)).sum)) :=
  ⟨rfl, yaml_parse_failure ⟨"b.yml", "x: [", false, "parse error"⟩ rfl
    [⟨"a.yml", "name: ok", true, ""⟩] [⟨"c.yml", "name: ok", true, ""⟩]⟩

/-- C3: the counter pair never decreases along the run, the final totals are
the sums of the per-file contributions of each kind, the last trace entry is
the final total, and a parse-failed file contributes exactly (1, 0). -/
theorem totals_invariant (files : List WFile) :
    List.Chain' (fun a b : Nat × Nat => a.1 ≤ b.1 ∧ a.2 ≤ b.2)
      (totalsTrace (0, 0) files) ∧
    runTotals files = ((files.map (fun g => (fileContribution g).1)).sum,
                       (files.map (fun g => (fileContribution g).2)).sum) ∧
    (totalsTrace (0, 0) files).getLast? = some (runTotals files) ∧
    (∀ f ∈ files, f.yamlOk = false → fileContribution f = (1, 0)) := by
  refine ⟨totalsTrace_chain files (0, 0), ?_, totalsTrace_getLast files (0, 0), ?_⟩
  · unfold runTotals
    rw [foldl_stepTotals]
    simp
  · intro f _ hf
    simp [fileContribution, hf]

/-- Witness for C3 at a concrete one-file run with a parse failure. -/
theorem totals_invariant_witness :
    fileContribution ⟨"b.yml", "x: [", false, "err"⟩ = (1, 0) ∧
    runTotals [⟨"b.yml", "x: [", false, "err"⟩] =
      (([(⟨"b.yml", "x: [", false, "err"⟩ : WFile)].map
          (fun g => (fileContribution g).1)).sum,
       ([(⟨"b.yml", "x: [", false, "err"⟩ : WFile)].map
          (fun g => (fileContribution g).2)).sum) :=
  ⟨(totals_invariant [⟨"b.yml", "x: [", false, "err"⟩]).2.2.2
      ⟨"b.yml", "x: [", false, "err"⟩ (List.mem_singleton.mpr rfl) rfl,
   (totals_invariant [⟨"b.yml", "x: [", false, "err"⟩]).2.1⟩

/-- C8: the run processes exactly the entries whose name ends in .yml (a
.yaml name does not), in lexicographically sorted name order, so the
processed sequence is a deterministic function of the directory listing. -/
theorem scanner_spec (entries : List WFile) :
    (main_run true entries).processed =
      (sortedEntries entries).filter (fun f => f.name.endsWith ".yml") ∧
    (∀ f : WFile, f ∈ (main_run true entries).processed ↔
      (f ∈ entries ∧ f.name.endsWith ".yml" = true)) ∧
    List.Pairwise (fun a b : WFile => a.name ≤ b.name)
      ((main_run true entries).processed) := by
  have hproc : (main_run true entries).processed = processedFiles entries := rfl
  have hperm := List.mergeSort_perm entries (fun a b => decide (a.name ≤ b.name))
  refine ⟨hproc, ?_, ?_⟩
  · intro f
    rw [hproc]
    unfold processedFiles sortedEntries
    rw [List.mem_filter]
    exact and_congr_left (fun _ => hperm.mem_iff)
  · have hs : List.Pairwise
        (fun a b : WFile => (fun a b : WFile => decide (a.name ≤ b.name)) a b = true)
        (sortedEntries entries) := by
      apply List.sorted_mergeSort
      · intro a b c hab hbc
        simp only [decide_eq_true_eq] at hab hbc ⊢
        exact le_trans hab hbc
      · intro a b
        simp only [Bool.or_eq_true, decide_eq_true_eq]
        exact le_total a.name b.name
    have hs2 : List.Pairwise (fun a b : WFile => a.name ≤ b.name)
        (sortedEntries entries) :=
      hs.imp (fun h => of_decide_eq_true h)
    rw [hproc]
    unfold processedFiles
    exact List.Pairwise.sublist (List.filter_sublist _) hs2
